import Mathlib

/-!
Shallow embedding of the aggregation and validation utilities of the
AI-Fitness-Tracker client, together with theorems about them.

Modelling conventions:
* JS `Date` values are epoch timestamps in milliseconds, embedded as `Int`
  under a fixed UTC offset (no DST); `toDateString`/`toISOString` day
  identification becomes floor division by the length of a day.
* JS numbers appearing in integer positions are `Int`; numbers flowing
  through division (`getGoalProgress`, `computeDailyProgress`) are `ℚ`,
  the exact-arithmetic model of the source's floating point.
* Optional record fields (`target?`, `value?`, `completed?`) are `Option`;
  the JS truthiness tests of the source are translated explicitly.
* Strings whose only observation in the source is emptiness or a date
  parse are embedded by that observation (`DateInput`); meal-draft fields
  go through an executable model of ECMAScript `parseInt` (decimal and
  `0x`-prefixed hexadecimal), and trimming uses the ECMAScript
  whitespace set.
-/

/-- Milliseconds per calendar day. -/
def msPerDay : Int := 86400000

/-- Calendar-day index of a timestamp: floor division by `msPerDay`.
Models the day component used by `toDateString`/`toISOString` splitting. -/
def dayOf (t : Int) : Int := t / msPerDay

/-- Timestamp of local midnight of `t`'s day; models `setHours(0,0,0,0)`. -/
def startOfDay (t : Int) : Int := dayOf t * msPerDay

/-- Day of week as JS `getDay`: 0 = Sunday .. 6 = Saturday.
Epoch day 0 (1970-01-01) was a Thursday, hence the offset 4. -/
def dayOfWeek (t : Int) : Int := (dayOf t + 4) % 7

/-- Start of the Monday-aligned week of `t`, as computed by both
`computeWeeklySummary` and the inline summary of `WorkoutTrackerPage`:
`diffToMonday = dayIndex === 0 ? 6 : dayIndex - 1`, then midnight minus
that many days. -/
def weekStart (t : Int) : Int :=
  startOfDay t - (if dayOfWeek t = 0 then 6 else dayOfWeek t - 1) * msPerDay

/-- Fuelled version of the streak `while` loop: starting at day `d`, count
consecutive days present in `days`, walking backward.  The loop in the
source is unbounded; fuel `days.length` is enough (proved below), since a
streak cannot exceed the number of distinct recorded days. -/
def streakLoop (days : List Int) (d : Int) : Nat → Nat
  | 0 => 0
  | n + 1 => if d ∈ days then streakLoop days (d - 1) n + 1 else 0

structure WorkoutSet where
  id : String
  reps : Int
  weight : Int
  completed : Bool
deriving DecidableEq

structure WorkoutExercise where
  id : String
  sets : List WorkoutSet
  notes : Option String
deriving DecidableEq

structure WorkoutSession where
  id : String
  name : String
  date : Int
  duration : Int
  exercises : List WorkoutExercise
  totalSets : Int
  totalVolume : Int
deriving DecidableEq

structure WeeklySummary where
  completedThisWeek : Nat
  totalMinutes : Int
  currentStreak : Nat
deriving DecidableEq

/-- Embedding of `computeWeeklySummary` from the workout utilities: filter
the history to the Monday-aligned window `[weekStart now, now]`, count it,
sum its durations (`w.duration || 0` is the identity on `Int`), and run
the backward streak walk over the set of recorded days. -/
def computeWeeklySummary (workoutHistory : List WorkoutSession) (now : Int) :
    WeeklySummary :=
  let startOfWeek := weekStart now
  let workoutsThisWeek :=
    workoutHistory.filter (fun w => decide (startOfWeek ≤ w.date ∧ w.date ≤ now))
  let completedDates := workoutHistory.map (fun w => dayOf w.date)
  { completedThisWeek := workoutsThisWeek.length
    totalMinutes := workoutsThisWeek.foldl (fun s w => s + w.duration) 0
    currentStreak := streakLoop completedDates (dayOf now) completedDates.length }

/-- One step of the day-bucketing map of `computeLocalTrends`: add volume
`v` and sets `s` to the entry with key `k`, inserting it if absent.
Insertion order of keys is preserved, as for JS string-keyed objects. -/
def upsertDay (k v s : Int) : List (Int × Int × Int) → List (Int × Int × Int)
  | [] => [(k, v, s)]
  | e :: rest =>
    if e.1 = k then (e.1, e.2.1 + v, e.2.2 + s) :: rest
    else e :: upsertDay k v s rest

/-- Association lookup by day key in the trend map. -/
def lookupDay (d : Int) : List (Int × Int × Int) → Option (Int × Int)
  | [] => none
  | e :: rest => if e.1 = d then some (e.2.1, e.2.2) else lookupDay d rest

/-- The day-keyed accumulation loop of `computeLocalTrends` (`for` over the
history, upserting `totalVolume`/`totalSets` per ISO day;
`w.totalVolume || 0` and `w.totalSets || 0` are the identity on `Int`). -/
def trendMap (workoutHistory : List WorkoutSession) : List (Int × Int × Int) :=
  workoutHistory.foldl
    (fun m w => upsertDay (dayOf w.date) w.totalVolume w.totalSets m) []

/-- Total `totalVolume` recorded on calendar day `d` of a history. -/
def daySum (workoutHistory : List WorkoutSession) (d : Int) : Int :=
  ((workoutHistory.filter (fun w => decide (dayOf w.date = d))).map
    (fun w => w.totalVolume)).sum

/-- Total `totalSets` recorded on calendar day `d` of a history. -/
def daySets (workoutHistory : List WorkoutSession) (d : Int) : Int :=
  ((workoutHistory.filter (fun w => decide (dayOf w.date = d))).map
    (fun w => w.totalSets)).sum

/-- Whether the history has at least one session on calendar day `d`. -/
def hasDay (workoutHistory : List WorkoutSession) (d : Int) : Bool :=
  workoutHistory.any (fun w => decide (dayOf w.date = d))

/-- Ordering of trend entries by their day key. -/
def trendLE (a b : Int × Int × Int) : Prop := a.1 ≤ b.1

instance : DecidableRel trendLE := fun a b => inferInstanceAs (Decidable (a.1 ≤ b.1))

instance : IsTotal (Int × Int × Int) trendLE := ⟨fun a b => le_total a.1 b.1⟩

instance : IsTrans (Int × Int × Int) trendLE := ⟨fun _ _ _ h h' => le_trans h h'⟩

/-- Embedding of `computeLocalTrends`: bucket sessions by calendar day,
sort the entries ascending by date, and take the largest per-day volume
with the `|| 1` floor of the source (`reduce(Math.max, 0) || 1`). -/
def computeLocalTrends (workoutHistory : List WorkoutSession) :
    List (Int × Int × Int) × Int :=
  let entries := (trendMap workoutHistory).insertionSort trendLE
  let m := entries.foldl (fun acc e => max acc e.2.1) 0
  (entries, if m = 0 then 1 else m)

inductive TaskType
  | checkbox
  | counter
deriving DecidableEq

structure DailyTask where
  id : String
  name : String
  type : TaskType
  target : Option Int
  unit : Option String
  value : Option Int
  completed : Option Bool
deriving DecidableEq

/-- JS `Math.round` on an exact rational: floor of `x + 1/2` (JS rounds
halves toward positive infinity). -/
def jsRound (q : ℚ) : Int := Int.floor (q + 1 / 2)

/-- Loop body of `computeDailyProgress`, accumulating `(total, achieved)`
exactly as the source's `for` loop does (`t.target || 0` and `t.value || 0`
become `Option.getD 0`; truthiness of `t.completed` is `= some true`). -/
def dailyStep (p : Nat × Nat) (t : DailyTask) : Nat × Nat :=
  match t.type with
  | .checkbox => (p.1 + 1, if t.completed = some true then p.2 + 1 else p.2)
  | .counter =>
    if 0 < t.target.getD 0 then
      (p.1 + 1, if t.target.getD 0 ≤ t.value.getD 0 then p.2 + 1 else p.2)
    else p

/-- Embedding of `computeDailyProgress`: one pass of `dailyStep` over the
tasks, then `Math.min(100, Math.round(achieved / total * 100))`, with 0 for
an empty list or when no task counts. -/
def computeDailyProgress (tasks : List DailyTask) : Int :=
  if tasks.length = 0 then 0
  else
    let p := tasks.foldl dailyStep (0, 0)
    if p.1 = 0 then 0 else min 100 (jsRound ((p.2 : ℚ) / (p.1 : ℚ) * 100))

/-- Whether a task counts toward the daily total: checkbox tasks always,
counter tasks only when their (defaulted) target is positive. -/
def countsToward (t : DailyTask) : Bool :=
  match t.type with
  | .checkbox => true
  | .counter => decide (0 < t.target.getD 0)

/-- Whether a counting task is achieved: a ticked checkbox, or a counter
whose value has reached its positive target. -/
def achievedTask (t : DailyTask) : Bool :=
  match t.type with
  | .checkbox => decide (t.completed = some true)
  | .counter =>
    decide (0 < t.target.getD 0) && decide (t.target.getD 0 ≤ t.value.getD 0)

/-- Embedding of `toggleCheckboxTask`: map over the list, replacing the
`completed` field of every task with matching id by the negation of its
JS truthiness (`!t.completed`, with `!undefined = true`). -/
def toggleCheckboxTask (tasks : List DailyTask) (id : String) : List DailyTask :=
  tasks.map (fun t =>
    if t.id = id then { t with completed := some (!(t.completed.getD false)) } else t)

/-- Embedding of `updateCounterTask`: map over the list, replacing the
`value` of every task with matching id by `max 0 ((t.value || 0) + delta)`. -/
def updateCounterTask (tasks : List DailyTask) (id : String) (delta : Int) :
    List DailyTask :=
  tasks.map (fun t =>
    if t.id = id then { t with value := some (max 0 (t.value.getD 0 + delta)) } else t)

/-- Observation of a goal-form date string by `validateGoalForm`: the
source only tests emptiness (`!values.start_date`) and the result of
`new Date(s).getTime()`, so a date input is either missing (empty or
absent), present but unparseable (`NaN` timestamp), or a timestamp. -/
inductive DateInput
  | missing
  | unparseable
  | parsed (t : Int)
deriving DecidableEq

structure GoalFormValues where
  goal_type : Option String
  target_value : Option ℚ
  start_date : DateInput
  end_date : DateInput
  notes : Option String
deriving DecidableEq

structure ValidationError where
  field : String
  message : String
deriving DecidableEq

/-- JS truthiness of an optional string: `undefined`, `null` and `""` are
falsy. -/
def strTruthy (s : Option String) : Bool :=
  match s with
  | none => false
  | some s => !(s = "")

/-- Whether a date input passes the `!values.x` presence check. -/
def datePresent (d : DateInput) : Bool :=
  match d with
  | .missing => false
  | _ => true

/-- Embedding of `validateGoalForm` from `goalsService.ts`.  `none` for
`target_value` covers `undefined`, `null` and `NaN`, which all take the
same branch in the source.  Errors are accumulated in source order. -/
def validateGoalForm (values : GoalFormValues) : List ValidationError :=
  (if !strTruthy values.goal_type then
    [⟨"goal_type", "Goal type is required"⟩] else []) ++
  (match values.target_value with
   | none => [⟨"target_value", "Target value is required"⟩]
   | some x =>
     if x ≤ 0 ∨ 1000 < x then
       [⟨"target_value", "Target value must be between 0 and 1000"⟩] else []) ++
  (if !datePresent values.start_date then
    [⟨"start_date", "Start date is required"⟩] else []) ++
  (if !datePresent values.end_date then
    [⟨"end_date", "End date is required"⟩] else []) ++
  (if datePresent values.start_date ∧ datePresent values.end_date then
    match values.start_date, values.end_date with
    | .parsed s, .parsed e =>
      if e < s then
        [⟨"date", "Start date must be before or equal to end date"⟩] else []
    | _, _ => [⟨"date", "Invalid date format"⟩]
   else [])

structure MealDraft where
  name : String
  calories : String
  protein : String
  fat : String
  carbs : String
deriving DecidableEq

/-- The whitespace set of ECMAScript string trimming, used both by
`String.prototype.trim` and by `parseInt`'s leading-whitespace skip:
WhiteSpace (TAB, VT, FF, SP, NBSP, ZWNBSP and the Unicode Zs category)
together with the LineTerminators (LF, CR, LS, PS). -/
def jsWhitespace (c : Char) : Bool :=
  decide (c.toNat = 9 ∨ c.toNat = 10 ∨ c.toNat = 11 ∨ c.toNat = 12 ∨
    c.toNat = 13 ∨ c.toNat = 32 ∨ c.toNat = 160 ∨ c.toNat = 5760 ∨
    (8192 ≤ c.toNat ∧ c.toNat ≤ 8202) ∨ c.toNat = 8232 ∨ c.toNat = 8233 ∨
    c.toNat = 8239 ∨ c.toNat = 8287 ∨ c.toNat = 12288 ∨ c.toNat = 65279)

/-- Emptiness of a string after JS `trim()`: the trimmed string is empty
exactly when every character is in the ECMAScript whitespace set.  This is
the only observation `validateMealDraft` makes of the trimmed name. -/
def trimEmpty (s : String) : Bool := s.data.all jsWhitespace

/-- Numeric value of a list of decimal digit characters. -/
def digitsVal (ds : List Char) : Nat :=
  ds.foldl (fun n c => 10 * n + (c.toNat - 48)) 0

/-- Hexadecimal digit test for `parseInt`'s radix-16 branch. -/
def isHexDigit (c : Char) : Bool :=
  decide ((48 ≤ c.toNat ∧ c.toNat ≤ 57) ∨ (97 ≤ c.toNat ∧ c.toNat ≤ 102) ∨
    (65 ≤ c.toNat ∧ c.toNat ≤ 70))

/-- Numeric value of a list of hexadecimal digit characters. -/
def hexDigitsVal (ds : List Char) : Nat :=
  ds.foldl
    (fun n c =>
      16 * n +
        (if 97 ≤ c.toNat then c.toNat - 87
         else if 65 ≤ c.toNat then c.toNat - 55
         else c.toNat - 48))
    0

/-- Whether the remaining input starts with the `0x`/`0X` hex prefix of
`parseInt` with no explicit radix. -/
def hexPrefixed (cs : List Char) : Bool :=
  match cs with
  | '0' :: x :: _ => decide (x = 'x' ∨ x = 'X')
  | _ => false

/-- Executable model of JS `parseInt` with no explicit radix, following
the ECMAScript algorithm: skip leading whitespace, read an optional sign,
then — if the rest starts with `0x`/`0X` — the longest run of hexadecimal
digits after the prefix, otherwise the longest run of decimal digits;
`none` models `NaN` (no digits in the chosen radix, covering the empty
string, `"x"` and `"0x"`).  The exact integer value stands in for the
float the builtin returns; the validation only observes sign and `NaN`,
which float rounding never changes. -/
def parseIntJS (s : String) : Option Int :=
  let cs := s.data.dropWhile jsWhitespace
  let signed : Int × List Char :=
    match cs with
    | '-' :: rest => (-1, rest)
    | '+' :: rest => (1, rest)
    | _ => (1, cs)
  if hexPrefixed signed.2 then
    let ds := (signed.2.drop 2).takeWhile isHexDigit
    if ds.isEmpty then none else some (signed.1 * (hexDigitsVal ds : Int))
  else
    let ds := signed.2.takeWhile (fun c => c.isDigit)
    if ds.isEmpty then none else some (signed.1 * (digitsVal ds : Int))

/-- Error list contributed by one numeric meal-draft field, as in the
source's loop body: `NaN` gives "must be a number", a parsed negative
gives "cannot be negative". -/
def numFieldErrors (label : String) (s : String) : List String :=
  match parseIntJS s with
  | none => [label ++ " must be a number"]
  | some v => if v < 0 then [label ++ " cannot be negative"] else []

/-- Embedding of `validateMealDraft`: the name check followed by the
fields loop in its fixed order (calories, protein, fat, carbs). -/
def validateMealDraft (draft : MealDraft) : List String :=
  (if trimEmpty draft.name then ["Meal name is required"] else []) ++
  numFieldErrors "Calories" draft.calories ++
  numFieldErrors "Protein" draft.protein ++
  numFieldErrors "Fat" draft.fat ++
  numFieldErrors "Carbs" draft.carbs

/-- Embedding of `getGoalProgress`: `!target || target <= 0` collapses to
"absent or nonpositive" over exact rationals, else the clamped ratio. -/
def getGoalProgress (current : ℚ) (target : Option ℚ) : ℚ :=
  match target with
  | none => 0
  | some t => if t ≤ 0 then 0 else min (current / t * 100) 100

structure WorkoutEntry where
  id : String
  name : String
  date : Int
  duration : Int
  intensity : String
  completed : Bool
  focus : String
  notes : Option String
deriving DecidableEq

/-- Embedding of the inline weekly summary of `WorkoutTrackerPage`: same
window arithmetic as `computeWeeklySummary`, but the week count and the
streak day set are restricted to entries with `completed = true`. -/
def inlineWeeklySummary (workouts : List WorkoutEntry) (now : Int) :
    WeeklySummary :=
  let startOfWeek := weekStart now
  let workoutsThisWeek :=
    workouts.filter (fun w => decide (startOfWeek ≤ w.date ∧ w.date ≤ now))
  let completedDates :=
    (workouts.filter (fun w => w.completed)).map (fun w => dayOf w.date)
  { completedThisWeek := (workoutsThisWeek.filter (fun w => w.completed)).length
    totalMinutes := workoutsThisWeek.foldl (fun s w => s + w.duration) 0
    currentStreak := streakLoop completedDates (dayOf now) completedDates.length }

/-- View of a tracker entry as a session record for the aggregator: the
fields `computeWeeklySummary` reads (`date`, `duration`) are carried over
unchanged. -/
def toSession (e : WorkoutEntry) : WorkoutSession :=
  { id := e.id, name := e.name, date := e.date, duration := e.duration
    exercises := [], totalSets := 0, totalVolume := 0 }


theorem foldl_add_map {α : Type} (f : α → Int) (l : List α) (a : Int) :
    l.foldl (fun s x => s + f x) a = a + (l.map f).sum := by
  induction l generalizing a with
  | nil => simp
  | cons x l ih => simp [List.foldl_cons, ih (a + f x)]; ring

theorem dayOf_mul (a : Int) : dayOf (a * msPerDay) = a := by
  unfold dayOf
  exact Int.mul_ediv_cancel a (by decide)

theorem weekStart_eq_mul (t : Int) :
    weekStart t =
      (dayOf t - (if dayOfWeek t = 0 then 6 else dayOfWeek t - 1)) * msPerDay := by
  unfold weekStart startOfDay
  rw [Int.sub_mul]

theorem weekStart_props (t : Int) :
    weekStart t % msPerDay = 0 ∧ dayOfWeek (weekStart t) = 1 ∧
    weekStart t ≤ t ∧ t < weekStart t + 7 * msPerDay ∧
    (dayOfWeek t = 0 → startOfDay t - weekStart t = 6 * msPerDay) := by
  have hm : (msPerDay : Int) = 86400000 := rfl
  have hdof : dayOf t = t / 86400000 := by rw [← hm]; rfl
  have hDt : dayOf t * 86400000 ≤ t ∧ t < dayOf t * 86400000 + 86400000 := by
    rw [hdof]; omega
  refine ⟨?_, ?_, ?_, ?_, ?_⟩
  · rw [weekStart_eq_mul]
    exact Int.mul_emod_left _ _
  · show (dayOf (weekStart t) + 4) % 7 = 1
    rw [weekStart_eq_mul, dayOf_mul]
    unfold dayOfWeek
    split <;> omega
  · rw [weekStart_eq_mul, hm]
    unfold dayOfWeek
    split <;> omega
  · rw [weekStart_eq_mul, hm]
    unfold dayOfWeek
    split <;> omega
  · intro h0
    rw [weekStart_eq_mul, if_pos h0]
    unfold startOfDay
    ring

/-- C1: `computeWeeklySummary` counts in `completedThisWeek` exactly the
sessions whose date lies in the window from Monday 00:00:00 of the current
Monday-aligned week (the previous Monday when `now` falls on a Sunday)
through `now` inclusive, and `totalMinutes` is the sum of the `duration`
fields of exactly those sessions.  The window's lower bound `weekStart now`
is characterised as a midnight (`% msPerDay = 0`), on a Monday
(`dayOfWeek = 1`), at most `now`, less than seven days back, and six full
days before `now`'s midnight when `now` is a Sunday. -/
theorem computeWeeklySummary_week_window (h : List WorkoutSession) (now : Int) :
    (computeWeeklySummary h now).completedThisWeek =
      (h.filter (fun w => decide (weekStart now ≤ w.date ∧ w.date ≤ now))).length ∧
    (computeWeeklySummary h now).totalMinutes =
      ((h.filter (fun w => decide (weekStart now ≤ w.date ∧ w.date ≤ now))).map
        (fun w => w.duration)).sum ∧
    weekStart now % msPerDay = 0 ∧
    dayOfWeek (weekStart now) = 1 ∧
    weekStart now ≤ now ∧
    now < weekStart now + 7 * msPerDay ∧
    (dayOfWeek now = 0 → startOfDay now - weekStart now = 6 * msPerDay) := by
  obtain ⟨p1, p2, p3, p4, p5⟩ := weekStart_props now
  refine ⟨rfl, ?_, p1, p2, p3, p4, p5⟩
  rw [show (computeWeeklySummary h now).totalMinutes =
      (h.filter (fun w => decide (weekStart now ≤ w.date ∧ w.date ≤ now))).foldl
        (fun s w => s + w.duration) 0 from rfl,
    foldl_add_map (fun w : WorkoutSession => w.duration)]
  simp

/-- Witness for C1 at a concrete Sunday: 1970-01-04 is a Sunday (day 3),
and the computed week start is the previous Monday, six days earlier. -/
theorem computeWeeklySummary_week_window_witness :
    startOfDay (3 * msPerDay + 5) - weekStart (3 * msPerDay + 5) = 6 * msPerDay :=
  (computeWeeklySummary_week_window [] (3 * msPerDay + 5)).2.2.2.2.2.2 (by decide)

theorem streakLoop_mem (days : List Int) :
    ∀ (n : Nat) (d : Int) (k : Nat), k < streakLoop days d n → (d - k) ∈ days := by
  intro n
  induction n with
  | zero => intro d k hk; simp [streakLoop] at hk
  | succ n ih =>
    intro d k hk
    rw [streakLoop] at hk
    by_cases hd : d ∈ days
    · simp only [if_pos hd] at hk
      cases k with
      | zero => simpa using hd
      | succ j =>
        have hj := ih (d - 1) j (by omega)
        have he : d - (j + 1 : Nat) = d - 1 - j := by push_cast; ring
        rw [he]
        exact hj
    · simp [if_neg hd] at hk

theorem streakLoop_le (days : List Int) :
    ∀ (n : Nat) (d : Int), streakLoop days d n ≤ n := by
  intro n
  induction n with
  | zero => intro d; simp [streakLoop]
  | succ n ih =>
    intro d
    rw [streakLoop]
    split
    · exact Nat.succ_le_succ (ih (d - 1))
    · exact Nat.zero_le _

theorem streakLoop_stop (days : List Int) :
    ∀ (n : Nat) (d : Int), streakLoop days d n < n →
      (d - streakLoop days d n) ∉ days := by
  intro n
  induction n with
  | zero => intro d hk; omega
  | succ n ih =>
    intro d hk
    rw [streakLoop] at hk ⊢
    by_cases hd : d ∈ days
    · simp only [if_pos hd] at hk ⊢
      have := ih (d - 1) (by omega)
      have he : d - (streakLoop days (d - 1) n + 1 : Nat) =
          d - 1 - streakLoop days (d - 1) n := by push_cast; ring
      rw [he]
      exact this
    · simp only [if_neg hd, Nat.cast_zero, sub_zero]
      exact hd

theorem streakLoop_not_mem (days : List Int) (d : Int) :
    (d - streakLoop days d days.length) ∉ days := by
  rcases Nat.lt_or_ge (streakLoop days d days.length) days.length with hlt | hge
  · exact streakLoop_stop days days.length d hlt
  · have heq : streakLoop days d days.length = days.length :=
      le_antisymm (streakLoop_le days days.length d) hge
    intro hmem
    have hall : ∀ k : Nat, k ≤ days.length → (d - k) ∈ days := by
      intro k hk
      rcases Nat.lt_or_ge k days.length with h | h
      · exact streakLoop_mem days days.length d k (by omega)
      · have : k = days.length := by omega
        rw [this, ← heq]
        exact hmem
    have hinj : Function.Injective (fun k : Nat => d - (k : Int)) := by
      intro a b hab
      simp only [sub_right_inj, Nat.cast_inj] at hab
      exact hab
    have hsub : (Finset.range (days.length + 1)).image (fun k : Nat => d - (k : Int)) ⊆
        days.toFinset := by
      intro x hx
      simp only [Finset.mem_image, Finset.mem_range] at hx
      obtain ⟨k, hk, rfl⟩ := hx
      exact List.mem_toFinset.mpr (hall k (by omega))
    have hcard := Finset.card_le_card hsub
    rw [Finset.card_image_of_injective _ hinj, Finset.card_range] at hcard
    have := List.toFinset_card_le days
    omega

/-- C2: the `currentStreak` of `computeWeeklySummary` counts consecutive
calendar days, starting at `now`'s day and walking backward, on which the
history has at least one session (any session counts; the session records
carry no completion flag that the function would read), and stops at the
first day without one — in particular it is 0 when there is no session on
`now`'s day. -/
theorem computeWeeklySummary_streak (h : List WorkoutSession) (now : Int) :
    (∀ k : Nat, k < (computeWeeklySummary h now).currentStreak →
      ∃ w ∈ h, dayOf w.date = dayOf now - k) ∧
    ¬ ∃ w ∈ h, dayOf w.date =
      dayOf now - (computeWeeklySummary h now).currentStreak := by
  have hs : (computeWeeklySummary h now).currentStreak =
      streakLoop (h.map (fun w => dayOf w.date)) (dayOf now)
        (h.map (fun w => dayOf w.date)).length := rfl
  constructor
  · intro k hk
    rw [hs] at hk
    have := streakLoop_mem (h.map (fun w => dayOf w.date)) _ (dayOf now) k hk
    simpa [List.mem_map, eq_comm] using this
  · intro hex
    have hmem : (dayOf now - (computeWeeklySummary h now).currentStreak) ∈
        h.map (fun w => dayOf w.date) := by
      obtain ⟨w, hw, hd⟩ := hex
      exact List.mem_map.mpr ⟨w, hw, by rw [hd]⟩
    rw [hs] at hmem
    exact streakLoop_not_mem _ _ hmem

/-- Witness for C2: an empty history has streak 0, extracted from the
characterisation at a concrete date. -/
theorem computeWeeklySummary_streak_witness :
    (computeWeeklySummary [] 5).currentStreak = 0 := by
  by_contra hne
  obtain ⟨w, hw, _⟩ :=
    (computeWeeklySummary_streak [] 5).1 0 (Nat.pos_of_ne_zero hne)
  exact absurd hw (List.not_mem_nil w)

theorem lookupDay_upsertDay (k v s d : Int) :
    ∀ m : List (Int × Int × Int),
      lookupDay d (upsertDay k v s m) =
        if d = k then
          some (((lookupDay k m).getD (0, 0)).1 + v,
                ((lookupDay k m).getD (0, 0)).2 + s)
        else lookupDay d m := by
  intro m
  induction m with
  | nil =>
    by_cases h : d = k
    · subst h; simp [upsertDay, lookupDay]
    · simp [upsertDay, lookupDay, h, Ne.symm h]
  | cons e rest ih =>
    by_cases hek : e.1 = k
    · by_cases hdk : d = k
      · subst hdk
        simp [upsertDay, lookupDay, hek, if_pos hek]
      · have hkd : k ≠ d := fun he => hdk he.symm
        simp [upsertDay, lookupDay, hek, hkd, hdk]
    · by_cases hed : e.1 = d
      · have hdk : d ≠ k := fun hdk => hek (hed.trans hdk)
        simp [upsertDay, lookupDay, hek, hed, if_neg hdk]
      · simp [upsertDay, lookupDay, hek, hed, ih]

theorem mem_keys_upsertDay (k v s x : Int) :
    ∀ m : List (Int × Int × Int),
      (x ∈ (upsertDay k v s m).map (fun e => e.1) ↔
        x ∈ m.map (fun e => e.1) ∨ x = k) := by
  intro m
  induction m with
  | nil => simp [upsertDay]
  | cons e rest ih =>
    by_cases hek : e.1 = k
    · subst hek
      simp [upsertDay]
      tauto
    · simp only [upsertDay, if_neg hek, List.map_cons, List.mem_cons, ih]
      tauto

theorem nodup_keys_upsertDay (k v s : Int) :
    ∀ m : List (Int × Int × Int),
      (m.map (fun e => e.1)).Nodup → ((upsertDay k v s m).map (fun e => e.1)).Nodup := by
  intro m
  induction m with
  | nil => simp [upsertDay]
  | cons e rest ih =>
    intro hnd
    simp only [List.map_cons, List.nodup_cons] at hnd
    by_cases hek : e.1 = k
    · simp only [upsertDay, if_pos hek, List.map_cons, List.nodup_cons]
      exact hnd
    · simp only [upsertDay, if_neg hek, List.map_cons, List.nodup_cons]
      refine ⟨?_, ih hnd.2⟩
      rw [mem_keys_upsertDay]
      rintro (hmem | hx)
      · exact hnd.1 hmem
      · exact hek hx

theorem hasDay_cons (w : WorkoutSession) (h : List WorkoutSession) (d : Int) :
    hasDay (w :: h) d = (decide (dayOf w.date = d) || hasDay h d) := by
  simp [hasDay]

theorem daySum_cons (w : WorkoutSession) (h : List WorkoutSession) (d : Int) :
    daySum (w :: h) d =
      (if dayOf w.date = d then w.totalVolume else 0) + daySum h d := by
  simp only [daySum, List.filter_cons]
  split <;> simp_all

theorem daySets_cons (w : WorkoutSession) (h : List WorkoutSession) (d : Int) :
    daySets (w :: h) d =
      (if dayOf w.date = d then w.totalSets else 0) + daySets h d := by
  simp only [daySets, List.filter_cons]
  split <;> simp_all

theorem daySum_eq_zero (h : List WorkoutSession) (d : Int)
    (hh : hasDay h d = false) : daySum h d = 0 ∧ daySets h d = 0 := by
  have hf : h.filter (fun w => decide (dayOf w.date = d)) = [] := by
    rw [List.filter_eq_nil_iff]
    intro a ha
    simp only [hasDay, List.any_eq_false] at hh
    exact fun hc => by simpa [hc] using hh a ha
  constructor <;> simp [daySum, daySets, hf]

theorem lookupDay_trendAux (hlist : List WorkoutSession) :
    ∀ (m : List (Int × Int × Int)) (d : Int),
      lookupDay d
        (hlist.foldl
          (fun m w => upsertDay (dayOf w.date) w.totalVolume w.totalSets m) m) =
        if hasDay hlist d then
          some (((lookupDay d m).getD (0, 0)).1 + daySum hlist d,
                ((lookupDay d m).getD (0, 0)).2 + daySets hlist d)
        else lookupDay d m := by
  induction hlist with
  | nil => intro m d; simp [hasDay, daySum, daySets]
  | cons w rest ih =>
    intro m d
    rw [List.foldl_cons, ih, lookupDay_upsertDay, hasDay_cons, daySum_cons,
      daySets_cons]
    by_cases hwd : dayOf w.date = d
    · subst hwd
      cases hr : hasDay rest (dayOf w.date) with
      | false =>
        obtain ⟨h1, h2⟩ := daySum_eq_zero rest (dayOf w.date) hr
        simp [hr, h1, h2]
      | true => simp [hr, add_assoc]
    · have hdw : ¬ d = dayOf w.date := fun hc => hwd hc.symm
      simp [hwd, hdw]

theorem lookupDay_trendMap (hlist : List WorkoutSession) (d : Int) :
    lookupDay d (trendMap hlist) =
      if hasDay hlist d then some (daySum hlist d, daySets hlist d) else none := by
  have h := lookupDay_trendAux hlist [] d
  simpa [trendMap, lookupDay] using h

theorem nodup_keys_trendMap (hlist : List WorkoutSession) :
    ((trendMap hlist).map (fun e => e.1)).Nodup := by
  have aux : ∀ (l : List WorkoutSession) (m : List (Int × Int × Int)),
      (m.map (fun e => e.1)).Nodup →
      ((l.foldl
        (fun m w => upsertDay (dayOf w.date) w.totalVolume w.totalSets m) m).map
          (fun e => e.1)).Nodup := by
    intro l
    induction l with
    | nil => intro m hm; simpa using hm
    | cons w rest ih =>
      intro m hm
      rw [List.foldl_cons]
      exact ih _ (nodup_keys_upsertDay _ _ _ m hm)
  exact aux hlist [] (by simp)

theorem mem_iff_lookupDay (d v s : Int) :
    ∀ m : List (Int × Int × Int), (m.map (fun e => e.1)).Nodup →
      ((d, v, s) ∈ m ↔ lookupDay d m = some (v, s)) := by
  intro m
  induction m with
  | nil => simp [lookupDay]
  | cons e rest ih =>
    intro hnd
    simp only [List.map_cons, List.nodup_cons] at hnd
    rw [List.mem_cons]
    by_cases hed : e.1 = d
    · constructor
      · rintro (rfl | hmem)
        · simp [lookupDay]
        · exfalso
          apply hnd.1
          rw [hed]
          exact List.mem_map.mpr ⟨(d, v, s), hmem, rfl⟩
      · intro hl
        simp only [lookupDay, if_pos hed] at hl
        simp only [Option.some.injEq, Prod.mk.injEq] at hl
        left
        cases e with
        | mk e1 e2 =>
          cases e2 with
          | mk ev es => simp_all
    · constructor
      · rintro (rfl | hmem)
        · exact absurd rfl hed
        · simp only [lookupDay, if_neg hed]
          exact (ih hnd.2).mp hmem
      · intro hl
        simp only [lookupDay, if_neg hed] at hl
        exact Or.inr ((ih hnd.2).mpr hl)

theorem foldl_max_nonneg :
    ∀ (l : List Int) (a : Int), 0 ≤ a →
      l.foldl max a = max a (l.foldr max 0) := by
  intro l
  induction l with
  | nil => intro a ha; simp [max_eq_left ha]
  | cons v l ih =>
    intro a ha
    rw [List.foldl_cons, List.foldr_cons, ih (max a v) (le_trans ha (le_max_left a v))]
    rw [max_assoc, max_comm v, ← max_assoc]

theorem foldr_max_one :
    ∀ l : List Int, l.foldr max 1 = max 1 (l.foldr max 0) := by
  intro l
  induction l with
  | nil => simp
  | cons v l ih =>
    rw [List.foldr_cons, List.foldr_cons, ih]
    rw [max_left_comm]

/-- C3: `computeLocalTrends` groups the sessions by calendar day: its entry
list contains `(d, v, s)` exactly when some session falls on day `d` and
`v`, `s` are the per-day sums of `totalVolume` and `totalSets`; the entries
are strictly ascending by date (one entry per day); and `maxVolume` is the
largest per-day volume floored at 1 (`foldr max 1`), so it is 1 for an
empty history or when every per-day total is at most 0. -/
theorem computeLocalTrends_spec (hlist : List WorkoutSession) :
    (∀ d v s : Int,
      ((d, v, s) ∈ (computeLocalTrends hlist).1 ↔
        ((∃ w ∈ hlist, dayOf w.date = d) ∧
          v = daySum hlist d ∧ s = daySets hlist d))) ∧
    ((computeLocalTrends hlist).1.map (fun e => e.1)).Pairwise
      (fun a b : Int => a < b) ∧
    (computeLocalTrends hlist).2 =
      ((computeLocalTrends hlist).1.map (fun e => e.2.1)).foldr max 1 := by
  have hperm := List.perm_insertionSort trendLE (trendMap hlist)
  have hnd := nodup_keys_trendMap hlist
  have hentries :
      (computeLocalTrends hlist).1 = (trendMap hlist).insertionSort trendLE := rfl
  refine ⟨?_, ?_, ?_⟩
  · intro d v s
    rw [hentries, hperm.mem_iff, mem_iff_lookupDay d v s _ hnd, lookupDay_trendMap]
    constructor
    · intro hl
      by_cases hh : hasDay hlist d
      · rw [if_pos hh] at hl
        simp only [Option.some.injEq, Prod.mk.injEq] at hl
        refine ⟨?_, hl.1.symm, hl.2.symm⟩
        simpa [hasDay] using hh
      · rw [if_neg hh] at hl
        exact absurd hl (by simp)
    · rintro ⟨hex, rfl, rfl⟩
      have hh : hasDay hlist d = true := by simpa [hasDay] using hex
      simp [hh]
  · have hsort := List.sorted_insertionSort trendLE (trendMap hlist)
    have hnd2 : (((trendMap hlist).insertionSort trendLE).map (fun e => e.1)).Nodup :=
      ((hperm.map (fun e => e.1)).nodup_iff).mpr hnd
    rw [hentries, List.pairwise_map]
    have h2 : List.Pairwise (fun a b : Int × Int × Int => a.1 ≠ b.1)
        ((trendMap hlist).insertionSort trendLE) := by
      simp only [List.Nodup, List.pairwise_map] at hnd2
      exact hnd2
    exact (List.Pairwise.and hsort h2).imp (fun hab => lt_of_le_of_ne hab.1 hab.2)
  · have h2 : (computeLocalTrends hlist).2 =
        (if ((trendMap hlist).insertionSort trendLE).foldl
            (fun acc e => max acc e.2.1) 0 = 0 then 1
         else ((trendMap hlist).insertionSort trendLE).foldl
            (fun acc e => max acc e.2.1) 0) := rfl
    have hf : ((trendMap hlist).insertionSort trendLE).foldl
        (fun acc e => max acc e.2.1) 0 =
        (((trendMap hlist).insertionSort trendLE).map (fun e => e.2.1)).foldl max 0 := by
      rw [List.foldl_map]
    rw [h2, hentries, hf]
    generalize (((trendMap hlist).insertionSort trendLE).map (fun e => e.2.1)) = vols
    rw [foldl_max_nonneg vols 0 le_rfl, foldr_max_one]
    rcases le_or_lt (vols.foldr max 0) 0 with h | h
    · rw [max_eq_left h, if_pos rfl, max_eq_left (by omega)]
    · rw [max_eq_right h.le, if_neg (by omega), max_eq_right (by omega)]

/-- Witness for C3: two sessions on the same calendar day with volumes 100
and 50 produce the single entry `(day 0, 150, 5)`. -/
theorem computeLocalTrends_spec_witness :
    ((0 : Int), (150 : Int), (5 : Int)) ∈ (computeLocalTrends
      [⟨"1", "A", 0, 45, [], 3, 100⟩, ⟨"2", "B", 100, 30, [], 2, 50⟩]).1 :=
  ((computeLocalTrends_spec
      [⟨"1", "A", 0, 45, [], 3, 100⟩, ⟨"2", "B", 100, 30, [], 2, 50⟩]).1
    0 150 5).mpr
    ⟨⟨⟨"1", "A", 0, 45, [], 3, 100⟩, by simp, by decide⟩, by decide, by decide⟩

theorem dailyProgress_fold (tasks : List DailyTask) :
    ∀ p : Nat × Nat,
      tasks.foldl dailyStep p =
        (p.1 + tasks.countP countsToward, p.2 + tasks.countP achievedTask) := by
  induction tasks with
  | nil => intro p; simp
  | cons t rest ih =>
    intro p
    cases htype : t.type with
    | checkbox =>
      by_cases hc : t.completed = some true <;>
        simp [List.foldl_cons, List.countP_cons, dailyStep, htype, hc, ih,
          countsToward, achievedTask, Prod.ext_iff] <;> omega
    | counter =>
      by_cases htg : 0 < t.target.getD 0
      · by_cases hv : t.target.getD 0 ≤ t.value.getD 0 <;>
          simp [List.foldl_cons, List.countP_cons, dailyStep, htype, htg, hv, ih,
            countsToward, achievedTask, Prod.ext_iff] <;> omega
      · simp [List.foldl_cons, List.countP_cons, dailyStep, htype, htg, ih,
          countsToward, achievedTask, Prod.ext_iff]

/-- C4: `computeDailyProgress` counts a task iff it is a checkbox or a
counter with positive target; a counting task is achieved iff ticked
(checkbox) or value has reached target (counter); the result is
`round(achieved / counted * 100)` clamped to at most 100, and 0 when the
list is empty or no task counts.  The list of one ticked checkbox, one
counter at 4 of 8 and one unticked checkbox scores 33. -/
theorem computeDailyProgress_spec (tasks : List DailyTask) :
    computeDailyProgress tasks =
      (if tasks.countP countsToward = 0 then 0
       else min 100 (jsRound ((tasks.countP achievedTask : ℚ) /
         (tasks.countP countsToward : ℚ) * 100))) ∧
    computeDailyProgress ([] : List DailyTask) = 0 ∧
    computeDailyProgress
      [⟨"c1", "Checked", .checkbox, none, none, none, some true⟩,
       ⟨"w", "Water", .counter, some 8, none, some 4, none⟩,
       ⟨"c2", "Unchecked", .checkbox, none, none, none, some false⟩] = 33 := by
  have hmain : ∀ ts : List DailyTask,
      computeDailyProgress ts =
        (if ts.countP countsToward = 0 then 0
         else min 100 (jsRound ((ts.countP achievedTask : ℚ) /
           (ts.countP countsToward : ℚ) * 100))) := by
    intro ts
    by_cases h0 : ts.length = 0
    · rw [List.length_eq_zero] at h0
      subst h0
      simp [computeDailyProgress]
    · simp only [computeDailyProgress, if_neg h0]
      rw [dailyProgress_fold ts (0, 0)]
      simp
  refine ⟨hmain tasks, rfl, ?_⟩
  rw [hmain]
  have hc : List.countP countsToward
      [⟨"c1", "Checked", .checkbox, none, none, none, some true⟩,
       ⟨"w", "Water", .counter, some 8, none, some 4, none⟩,
       ⟨"c2", "Unchecked", .checkbox, none, none, none, some false⟩] = 3 := by decide
  have ha : List.countP achievedTask
      [⟨"c1", "Checked", .checkbox, none, none, none, some true⟩,
       ⟨"w", "Water", .counter, some 8, none, some 4, none⟩,
       ⟨"c2", "Unchecked", .checkbox, none, none, none, some false⟩] = 1 := by decide
  rw [hc, ha]
  norm_num [jsRound]

set_option maxHeartbeats 2000000 in
/-- C5: `validateGoalForm` reports a `goal_type` error iff the goal type is
missing, a `target_value` error iff the value is absent (or `NaN`) or lies
outside `(0, 1000]`, `start_date`/`end_date` errors iff those are missing,
and — only when both dates are present — a `date` error iff one of them is
unparseable or start is after end; independent errors coexist in the one
returned list, and the list is empty exactly for a fully valid form. -/
theorem validateGoalForm_spec (v : GoalFormValues) :
    ((∃ m, ValidationError.mk "goal_type" m ∈ validateGoalForm v) ↔
      strTruthy v.goal_type = false) ∧
    ((∃ m, ValidationError.mk "target_value" m ∈ validateGoalForm v) ↔
      (v.target_value = none ∨
        ∃ x, v.target_value = some x ∧ (x ≤ 0 ∨ 1000 < x))) ∧
    ((∃ m, ValidationError.mk "start_date" m ∈ validateGoalForm v) ↔
      v.start_date = DateInput.missing) ∧
    ((∃ m, ValidationError.mk "end_date" m ∈ validateGoalForm v) ↔
      v.end_date = DateInput.missing) ∧
    ((∃ m, ValidationError.mk "date" m ∈ validateGoalForm v) ↔
      (v.start_date ≠ DateInput.missing ∧ v.end_date ≠ DateInput.missing ∧
        (v.start_date = DateInput.unparseable ∨ v.end_date = DateInput.unparseable ∨
          ∃ ts te, v.start_date = DateInput.parsed ts ∧
            v.end_date = DateInput.parsed te ∧ te < ts))) ∧
    (validateGoalForm v = [] ↔
      (strTruthy v.goal_type = true ∧
       (∃ x, v.target_value = some x ∧ 0 < x ∧ x ≤ 1000) ∧
       (∃ ts, v.start_date = DateInput.parsed ts) ∧
       (∃ te, v.end_date = DateInput.parsed te) ∧
       (∀ ts te, v.start_date = DateInput.parsed ts →
          v.end_date = DateInput.parsed te → ts ≤ te))) := by
  obtain ⟨g, tv, sd, ed, nts⟩ := v
  cases hg : strTruthy g <;>
  rcases tv with _ | x <;>
  cases sd <;> cases ed <;>
  simp only [validateGoalForm, datePresent, hg] <;>
  split_ifs <;>
  (try cases ‹x ≤ 0 ∨ 1000 < x›) <;>
  simp_all [not_or, not_le, not_lt]

/-- Witness for C5: a fully valid form (type present, target 500 in range,
start before end) yields the empty error list. -/
theorem validateGoalForm_spec_witness :
    validateGoalForm
      ⟨some "strength", some 500, DateInput.parsed 0,
        DateInput.parsed 100, none⟩ = [] :=
  (validateGoalForm_spec
      ⟨some "strength", some 500, DateInput.parsed 0,
        DateInput.parsed 100, none⟩).2.2.2.2.2.mpr
    ⟨rfl, ⟨500, rfl, by norm_num, by norm_num⟩, ⟨0, rfl⟩, ⟨100, rfl⟩, by
      intro ts te hts hte
      cases hts
      cases hte
      norm_num⟩

set_option maxHeartbeats 2000000 in
/-- C6: `validateMealDraft` is empty exactly when the name is nonempty
after trimming and every numeric field parses to an integer that is at
least 0; the name error appears iff the trimmed name is empty; each field
contributes an error (bad-number or negative) iff it fails to parse to a
nonnegative integer; and the draft with empty name, calories `-1` and
protein `x` yields exactly the three expected errors in check order. -/
theorem validateMealDraft_spec (d : MealDraft) :
    (validateMealDraft d = [] ↔
      (trimEmpty d.name = false ∧
       (∃ v, parseIntJS d.calories = some v ∧ 0 ≤ v) ∧
       (∃ v, parseIntJS d.protein = some v ∧ 0 ≤ v) ∧
       (∃ v, parseIntJS d.fat = some v ∧ 0 ≤ v) ∧
       (∃ v, parseIntJS d.carbs = some v ∧ 0 ≤ v))) ∧
    ("Meal name is required" ∈ validateMealDraft d ↔ trimEmpty d.name = true) ∧
    (("Calories must be a number" ∈ validateMealDraft d ∨
      "Calories cannot be negative" ∈ validateMealDraft d) ↔
      ¬ ∃ v, parseIntJS d.calories = some v ∧ 0 ≤ v) ∧
    (("Protein must be a number" ∈ validateMealDraft d ∨
      "Protein cannot be negative" ∈ validateMealDraft d) ↔
      ¬ ∃ v, parseIntJS d.protein = some v ∧ 0 ≤ v) ∧
    (("Fat must be a number" ∈ validateMealDraft d ∨
      "Fat cannot be negative" ∈ validateMealDraft d) ↔
      ¬ ∃ v, parseIntJS d.fat = some v ∧ 0 ≤ v) ∧
    (("Carbs must be a number" ∈ validateMealDraft d ∨
      "Carbs cannot be negative" ∈ validateMealDraft d) ↔
      ¬ ∃ v, parseIntJS d.carbs = some v ∧ 0 ≤ v) ∧
    validateMealDraft ⟨"", "-1", "x", "5", "5"⟩ =
      ["Meal name is required", "Calories cannot be negative",
       "Protein must be a number"] := by
  refine ⟨?_, ?_, ?_, ?_, ?_, ?_, by decide⟩ <;>
  (cases hn : trimEmpty d.name <;>
   cases hp1 : parseIntJS d.calories <;>
   cases hp2 : parseIntJS d.protein <;>
   cases hp3 : parseIntJS d.fat <;>
   cases hp4 : parseIntJS d.carbs <;>
   simp_all [validateMealDraft, numFieldErrors])

/-- Witness for C6: a draft with nonempty name and nonnegative integer
fields validates with no errors. -/
theorem validateMealDraft_spec_witness :
    validateMealDraft ⟨"Chicken", "500", "40", "10", "20"⟩ = [] :=
  (validateMealDraft_spec ⟨"Chicken", "500", "40", "10", "20"⟩).1.mpr
    ⟨by decide, ⟨500, by decide, by decide⟩, ⟨40, by decide, by decide⟩,
     ⟨10, by decide, by decide⟩, ⟨20, by decide, by decide⟩⟩

/-- C7: `getGoalProgress` is the ratio to target times 100 clamped at 100
when the target is positive, and 0 when the target is absent, zero or
negative; hence 0 at current 0, 100 at the target and 100 at twice the
target. -/
theorem getGoalProgress_spec (x T : ℚ) :
    getGoalProgress x none = 0 ∧
    (T ≤ 0 → getGoalProgress x (some T) = 0) ∧
    (0 < T → getGoalProgress x (some T) = min (x / T * 100) 100) ∧
    (0 < T → getGoalProgress 0 (some T) = 0 ∧
      getGoalProgress T (some T) = 100 ∧
      getGoalProgress (2 * T) (some T) = 100) := by
  refine ⟨rfl, ?_, ?_, ?_⟩
  · intro hT
    simp [getGoalProgress, hT]
  · intro hT
    simp [getGoalProgress, not_le.mpr hT]
  · intro hT
    have hT0 : ¬ T ≤ 0 := not_le.mpr hT
    have hTne : T ≠ 0 := ne_of_gt hT
    refine ⟨?_, ?_, ?_⟩
    · simp [getGoalProgress, hT0]
    · simp [getGoalProgress, hT0, div_self hTne]
    · simp only [getGoalProgress, if_neg hT0]
      rw [mul_div_assoc, div_self hTne, mul_one]
      norm_num
  
/-- Witness for C7 at target 4: progress of 4 toward 4 is the full 100. -/
theorem getGoalProgress_spec_witness : getGoalProgress 4 (some 4) = 100 :=
  ((getGoalProgress_spec 4 4).2.2.2 (by norm_num)).2.1

/-- Counterexample for C8 as stated: toggling twice a matching task whose
`completed` field is undefined does not restore the original field — it
ends defined as `false` (`!undefined` is `true`, toggled back to `false`),
not undefined. -/
theorem toggleCheckboxTask_twice_cex :
    toggleCheckboxTask (toggleCheckboxTask
        [⟨"a", "Protein Hit", TaskType.checkbox, none, none, none, none⟩] "a") "a" ≠
      [⟨"a", "Protein Hit", TaskType.checkbox, none, none, none, none⟩] := by
  decide

/-- C8 (amended): applying `toggleCheckboxTask` twice with the same id
restores every task except that a matching task whose `completed` field
was undefined ends with `completed = some false` (the same falsy truth
value as undefined); in particular every task with a defined `completed`
field, and every non-matching task, is returned exactly to its original
value. -/
theorem toggleCheckboxTask_twice (tasks : List DailyTask) (id : String) :
    toggleCheckboxTask (toggleCheckboxTask tasks id) id =
      tasks.map (fun t =>
        if t.id = id ∧ t.completed = none then { t with completed := some false }
        else t) := by
  simp only [toggleCheckboxTask, List.map_map]
  apply List.map_congr_left
  intro t _
  obtain ⟨tid, tname, tty, ttg, tun, tvl, tcp⟩ := t
  by_cases hid : tid = id <;> cases tcp <;>
    simp [hid, Function.comp, Bool.not_not]

/-- C9: given a task list whose (defaulted) values are all nonnegative,
`updateCounterTask` leaves every value nonnegative regardless of the sign
or magnitude of `delta`; pointwise, every non-matching task is unchanged
and the matching task's value becomes its previous value plus `delta`
floored at 0, with no upper clamp. -/
theorem updateCounterTask_spec (tasks : List DailyTask) (id : String) (delta : Int)
    (h0 : ∀ t ∈ tasks, 0 ≤ t.value.getD 0) :
    (∀ t ∈ updateCounterTask tasks id delta, 0 ≤ t.value.getD 0) ∧
    List.Forall₂ (fun t u =>
        (t.id ≠ id → u = t) ∧
        (t.id = id →
          u = { t with value := some (max 0 (t.value.getD 0 + delta)) }))
      tasks (updateCounterTask tasks id delta) := by
  constructor
  · intro t ht
    simp only [updateCounterTask, List.mem_map] at ht
    obtain ⟨t0, ht0, rfl⟩ := ht
    by_cases hid : t0.id = id
    · simp [hid]
    · simp only [if_neg hid]
      exact h0 t0 ht0
  · rw [updateCounterTask, List.forall₂_map_right_iff, List.forall₂_same]
    intro t ht
    constructor
    · intro hne
      simp [hne]
    · intro heq
      simp [heq]

/-- Witness for C9: pushing a counter at value 3 down by 5 floors it at 0,
which is nonnegative. -/
theorem updateCounterTask_spec_witness :
    0 ≤ (DailyTask.mk "w" "Drink Water" TaskType.counter (some 8) (some "cups")
        (some 0) none).value.getD 0 :=
  (updateCounterTask_spec
      [⟨"w", "Drink Water", TaskType.counter, some 8, some "cups", some 3, none⟩]
      "w" (-5) (by decide)).1
    ⟨"w", "Drink Water", TaskType.counter, some 8, some "cups", some 0, none⟩
    (by decide)

/-- Counterexample for C10 as stated: on a single not-completed workout
dated at `now`, the inline summary of `WorkoutTrackerPage` reports 0
completed this week while `computeWeeklySummary` on the same record
reports 1 — the two implementations are not equivalent, because the inline
one counts only `completed` entries in the week count and the streak. -/
theorem inlineWeeklySummary_cex :
    inlineWeeklySummary
        [⟨"1", "Mobility Flow", 0, 30, "Low", false, "Mobility", none⟩] 0 ≠
      computeWeeklySummary
        [toSession ⟨"1", "Mobility Flow", 0, 30, "Low", false, "Mobility", none⟩]
        0 := by
  decide

/-- C10 (amended): the inline weekly summary of `WorkoutTrackerPage` agrees
with the `WorkoutAggregator`'s `computeWeeklySummary` once the completion
filter is accounted for: its week count and streak equal those computed by
`computeWeeklySummary` on the completed entries only, and its total minutes
equal those computed by `computeWeeklySummary` on all entries (dates and
durations being read identically through `toSession`). -/
theorem inlineWeeklySummary_refines (workouts : List WorkoutEntry) (now : Int) :
    inlineWeeklySummary workouts now =
      { completedThisWeek :=
          (computeWeeklySummary
            ((workouts.filter (fun w => w.completed)).map toSession)
            now).completedThisWeek
        totalMinutes :=
          (computeWeeklySummary (workouts.map toSession) now).totalMinutes
        currentStreak :=
          (computeWeeklySummary
            ((workouts.filter (fun w => w.completed)).map toSession)
            now).currentStreak } := by
  simp only [inlineWeeklySummary, computeWeeklySummary, WeeklySummary.mk.injEq]
  refine ⟨?_, ?_, ?_⟩
  · rw [List.filter_map, List.length_map, List.filter_filter, List.filter_filter]
    apply congrArg
    apply List.filter_congr
    intro w _
    simp [toSession, Bool.and_comm]
  · rw [List.filter_map, foldl_add_map, foldl_add_map, List.map_map]
    rfl
  · rw [List.map_map]
    rfl
